import Mathlib

/-!
Verification of the record reconciliation and translation layer of the
libdns/metaname provider (`provider.go`).

The embedding models:
* the IPv4 fragment of Go `net/netip` (`ParseAddr` / `Addr.String`), which the
  provider uses to validate and render address data;
* the provider's native record tuple `metanameRR` (name, type, ttl, data,
  reference);
* the generic libdns record model as a tagged union over the kinds the
  provider dispatches on (`Address`, `CNAME`, `TXT`, any other kind that
  parses, and a malformed record whose `RR().Parse()` fails);
* the four operations `GetRecords`, `AppendRecords`, `SetRecords` and
  `DeleteRecords` as pure functions from the fetched remote zone state and
  the input records to the list of remote calls issued, the returned record
  list and the returned error.  Remote create/update/delete failures are
  modelled by an oracle `fail : Nat → Bool` indexed by the position of the
  mutation call in the sequence of issued calls.

Durations are modelled as nanosecond counts (`Nat`), matching Go
`time.Duration` for the non-negative values DNS TTLs take; `int(d.Seconds())`
is modelled as exact truncating division by 10^9.
-/

set_option autoImplicit false

/-! ### The IPv4 fragment of Go net/netip -/

/-- Decimal digit character, `digitChar n = '0' + n` for `n < 10`. -/
def digitChar (n : Nat) : Char := Char.ofNat (48 + n)

/-- Decimal rendering of `n < 1000` as Go renders IPv4 octets: no padding,
no leading zeros. -/
def natDecChars (n : Nat) : List Char :=
  if n < 10 then [digitChar n]
  else if n < 100 then [digitChar (n / 10), digitChar (n % 10)]
  else [digitChar (n / 100), digitChar (n / 10 % 10), digitChar (n % 10)]

/-- An IPv4 address: the fragment of Go `netip.Addr` exercised by the
provider (four octets). -/
structure Addr where
  b0 : Fin 256
  b1 : Fin 256
  b2 : Fin 256
  b3 : Fin 256
deriving DecidableEq

/-- Character list of the canonical dotted-quad form, as produced by Go
`netip.Addr.String` for IPv4. -/
def Addr.renderChars (a : Addr) : List Char :=
  natDecChars a.b0.val ++
    ('.' :: (natDecChars a.b1.val ++
      ('.' :: (natDecChars a.b2.val ++ ('.' :: natDecChars a.b3.val)))))

/-- Canonical string form of an address (Go `netip.Addr.String`). -/
def Addr.render (a : Addr) : String := String.mk a.renderChars

/-- Parse one dotted-quad field as Go `netip.ParseAddr` does: 1–3 decimal
digits, no leading zero, value at most 255. -/
def parseField (cs : List Char) : Option (Fin 256) :=
  if cs.isEmpty then none
  else if cs.length > 3 then none
  else if cs.any (fun c => !(c.isDigit)) then none
  else if cs.length > 1 && cs.headD '0' == '0' then none
  else
    let v := cs.foldl (fun a c => a * 10 + (c.toNat - 48)) 0
    if h : v < 256 then some ⟨v, h⟩ else none

/-- Split a character list on `'.'` separators (Go field splitting for
IPv4 literals). -/
def splitOnDot : List Char → List (List Char)
  | [] => [[]]
  | c :: rest =>
    if c = '.' then [] :: splitOnDot rest
    else
      match splitOnDot rest with
      | [] => [[c]]
      | g :: gs => (c :: g) :: gs

/-- Go `netip.ParseAddr`, restricted to the IPv4 grammar: exactly four
dotted fields, each a valid octet. -/
def parseAddrChars (cs : List Char) : Option Addr :=
  match splitOnDot cs with
  | [f0, f1, f2, f3] =>
    match parseField f0, parseField f1, parseField f2, parseField f3 with
    | some b0, some b1, some b2, some b3 => some ⟨b0, b1, b2, b3⟩
    | _, _, _, _ => none
  | _ => none

/-- Go `netip.ParseAddr` on strings (IPv4 fragment). -/
def parseAddr (s : String) : Option Addr := parseAddrChars s.data

/-! ### Data model -/

/-- The provider's native record tuple (Go struct `metanameRR`; the Go field
`Type` is rendered `Typ`).  `Ttl` is in whole seconds. -/
structure metanameRR where
  Name : String
  Typ : String
  Ttl : Nat
  Data : String
  Reference : String
deriving DecidableEq

/-- The generic libdns record model as the provider dispatches on it:
the three supported concrete kinds, any other kind that `RR().Parse()`
handles (e.g. MX, NS, SRV — carrying its RR type string and data), and a
record whose `RR().Parse()` fails.  `ttl` is in nanoseconds
(Go `time.Duration`). -/
inductive GenericRecord where
  | address (name : String) (ttl : Nat) (ip : Addr)
  | cname (name : String) (ttl : Nat) (target : String)
  | txt (name : String) (ttl : Nat) (text : String)
  | other (name : String) (ttl : Nat) (typ : String) (data : String)
  | malformed
deriving DecidableEq

def GenericRecord.isMalformed : GenericRecord → Bool
  | .malformed => true
  | _ => false

/-- The record's owner name (`rec.RR().Name`). -/
def GenericRecord.rrName : GenericRecord → String
  | .address n _ _ => n
  | .cname n _ _ => n
  | .txt n _ _ => n
  | .other n _ _ _ => n
  | .malformed => ""

/-- The record's RR type string (`rec.RR().Type`; addresses are IPv4 in
this model, hence type string `A`). -/
def GenericRecord.rrType : GenericRecord → String
  | .address _ _ _ => "A"
  | .cname _ _ _ => "CNAME"
  | .txt _ _ _ => "TXT"
  | .other _ _ t _ => t
  | .malformed => ""

/-- TTL in nanoseconds (Go `time.Duration`). -/
def GenericRecord.ttlNs : GenericRecord → Nat
  | .address _ t _ => t
  | .cname _ t _ => t
  | .txt _ t _ => t
  | .other _ t _ _ => t
  | .malformed => 0

/-- The reconciliation key as `SetRecords` builds it: `Name + "|" + Type`. -/
def keyStr (name typ : String) : String := name ++ "|" ++ typ

def metanameRR.key (r : metanameRR) : String := keyStr r.Name r.Typ

def GenericRecord.key (g : GenericRecord) : String := keyStr g.rrName g.rrType

/-- Translation of a generic record to the native form, exactly as the
`AppendRecords` / `SetRecords` type switches build `metanameRR`:
`Ttl = int(r.TTL.Seconds())` (truncating division by 10^9), address data is
the canonical IP string.  `none` for kinds outside the type switch. -/
def toNative : GenericRecord → Option metanameRR
  | .address n t ip => some ⟨n, "A", t / 1000000000, ip.render, ""⟩
  | .cname n t tgt => some ⟨n, "CNAME", t / 1000000000, tgt, ""⟩
  | .txt n t tx => some ⟨n, "TXT", t / 1000000000, tx, ""⟩
  | .other _ _ _ _ => none
  | .malformed => none

/-- Translation of a fetched native record to the generic form, exactly as
the `GetRecords` switch does: `A`/`AAAA` data must parse as an IP address
(invalid addresses are skipped), `CNAME`/`TXT` are copied, every other type
is skipped. -/
def toGeneric (rec : metanameRR) : Option GenericRecord :=
  match rec.Typ with
  | "A" => (parseAddr rec.Data).map (fun ip => GenericRecord.address rec.Name (rec.Ttl * 1000000000) ip)
  | "AAAA" => (parseAddr rec.Data).map (fun ip => GenericRecord.address rec.Name (rec.Ttl * 1000000000) ip)
  | "CNAME" => some (GenericRecord.cname rec.Name (rec.Ttl * 1000000000) rec.Data)
  | "TXT" => some (GenericRecord.txt rec.Name (rec.Ttl * 1000000000) rec.Data)
  | _ => none

/-- The helper `recordsMatch` of provider.go: native type, name,
TTL-in-seconds and data string must all equal the input's translated form;
false for kinds outside the type switch. -/
def recordsMatch (existing : metanameRR) (input : GenericRecord) : Bool :=
  match input with
  | .address n t ip =>
    existing.Typ == "A" && existing.Name == n &&
      existing.Ttl == t / 1000000000 && existing.Data == ip.render
  | .cname n t tgt =>
    existing.Typ == "CNAME" && existing.Name == n &&
      existing.Ttl == t / 1000000000 && existing.Data == tgt
  | .txt n t tx =>
    existing.Typ == "TXT" && existing.Name == n &&
      existing.Ttl == t / 1000000000 && existing.Data == tx
  | _ => false

/-- Errors surfaced by the operations. -/
inductive GoErr where
  | parseErr
  | remoteErr
  | fetchErr
deriving DecidableEq

/-- A remote mutation call issued by an operation. -/
inductive RemoteCall where
  | create (rec : metanameRR)
  | update (ref : String) (rec : metanameRR)
  | delete (ref : String)
deriving DecidableEq

/-- The reconciliation key a create/update call is for. -/
def RemoteCall.callKey : RemoteCall → Option String
  | .create m => some m.key
  | .update _ m => some m.key
  | .delete _ => none

/-- The create/update calls of a trace that concern the key `k`. -/
def callsForKey (tr : List RemoteCall) (k : String) : List RemoteCall :=
  tr.filter (fun c => c.callKey == some k)

def RemoteCall.isDelete : RemoteCall → Bool
  | .delete _ => true
  | _ => false

/-- Failure oracle under which every remote mutation call succeeds. -/
def allOk : Nat → Bool := fun _ => false

/-! ### GetRecords -/

/-- `GetRecords` after a successful fetch: translate each native record,
silently dropping the ones `toGeneric` rejects. -/
def getRecords (remote : List metanameRR) : List GenericRecord :=
  remote.filterMap toGeneric

/-- `GetRecords` including the fetch: a fetch error is returned as-is,
a successful fetch never produces an error. -/
def listRecords (fetch : Except GoErr (List metanameRR)) : Except GoErr (List GenericRecord) :=
  match fetch with
  | .error e => .error e
  | .ok remote => .ok (getRecords remote)

/-! ### AppendRecords -/

/-- The `AppendRecords` loop: a record that fails to parse aborts with a
parse error; a parsed record outside the type switch is skipped
(`default: continue`); otherwise a create call is issued, counted by the
failure oracle.  Returns (calls issued, records added, error). -/
def appendGo (fail : Nat → Bool) : List GenericRecord → Nat → List RemoteCall × List GenericRecord × Option GoErr
  | [], _ => ([], [], none)
  | GenericRecord.malformed :: _, _ => ([], [], some GoErr.parseErr)
  | r :: rest, cnt =>
    match toNative r with
    | none => appendGo fail rest cnt
    | some m =>
      if fail cnt then ([RemoteCall.create m], [], some GoErr.remoteErr)
      else
        let t := appendGo fail rest (cnt + 1)
        (RemoteCall.create m :: t.1, r :: t.2.1, t.2.2)

/-- `AppendRecords`: on any error the Go code returns `nil, err`, so the
returned record list is empty whenever an error is reported. -/
def appendRecords (fail : Nat → Bool) (records : List GenericRecord) :
    List RemoteCall × List GenericRecord × Option GoErr :=
  let t := appendGo fail records 0
  (t.1, if t.2.2.isSome then [] else t.2.1, t.2.2)

/-! ### SetRecords -/

/-- `existingMap` lookup: Go builds a map from key to record by iterating
the fetched records in order, so the last record with a given key wins. -/
def lookupLast : List metanameRR → String → Option metanameRR
  | [], _ => none
  | r :: rest, k =>
    match lookupLast rest k with
    | some e => some e
    | none => if r.key == k then some r else none

/-- The distinct reconciliation keys of the input, in first-occurrence
order (one map entry per key). -/
def keysOf : List GenericRecord → List String
  | [] => []
  | r :: rest => r.key :: (keysOf rest).filter (fun k => !(k == r.key))

/-- The input record surviving for a key: Go map insertion overwrites, so
the last input record with that key wins. -/
def lastD (records : List GenericRecord) (k : String) : GenericRecord :=
  ((records.filter (fun r => r.key == k)).getLast?).getD GenericRecord.malformed

/-- `inputMap` as a list of (key, surviving record) pairs. -/
def setPairs (records : List GenericRecord) : List (String × GenericRecord) :=
  (keysOf records).map (fun k => (k, lastD records k))

/-- The mutation calls the `SetRecords` loop issues for one input key
(ignoring remote failures): no call when the retained existing record
matches, an update against its reference when it does not, a create when
the key has no existing record; no call at all for kinds outside the type
switch. -/
def pairCalls (remote : List metanameRR) (p : String × GenericRecord) : List RemoteCall :=
  match lookupLast remote p.1 with
  | some existing =>
    if recordsMatch existing p.2 then []
    else
      match toNative p.2 with
      | some m => [RemoteCall.update existing.Reference m]
      | none => []
  | none =>
    match toNative p.2 with
    | some m => [RemoteCall.create m]
    | none => []

/-- The `SetRecords` reconciliation loop over the input map entries.
Every processed entry is appended to the returned list; remote failures
abort the loop. -/
def setLoop (fail : Nat → Bool) (remote : List metanameRR) :
    List (String × GenericRecord) → Nat → List RemoteCall × List GenericRecord × Option GoErr
  | [], _ => ([], [], none)
  | (k, r) :: ps, cnt =>
    match lookupLast remote k with
    | some existing =>
      if recordsMatch existing r then
        let t := setLoop fail remote ps cnt
        (t.1, r :: t.2.1, t.2.2)
      else
        match toNative r with
        | some m =>
          if fail cnt then ([RemoteCall.update existing.Reference m], [], some GoErr.remoteErr)
          else
            let t := setLoop fail remote ps (cnt + 1)
            (RemoteCall.update existing.Reference m :: t.1, r :: t.2.1, t.2.2)
        | none =>
          let t := setLoop fail remote ps cnt
          (t.1, r :: t.2.1, t.2.2)
    | none =>
      match toNative r with
      | some m =>
        if fail cnt then ([RemoteCall.create m], [], some GoErr.remoteErr)
        else
          let t := setLoop fail remote ps (cnt + 1)
          (RemoteCall.create m :: t.1, r :: t.2.1, t.2.2)
      | none =>
        let t := setLoop fail remote ps cnt
        (t.1, r :: t.2.1, t.2.2)

/-- `SetRecords`: any input failing to parse aborts before any remote call
with `nil, err`; likewise every error path returns `nil`, so the returned
record list is empty whenever an error is reported. -/
def setRecords (fail : Nat → Bool) (remote : List metanameRR) (records : List GenericRecord) :
    List RemoteCall × List GenericRecord × Option GoErr :=
  if records.any GenericRecord.isMalformed then ([], [], some GoErr.parseErr)
  else
    let t := setLoop fail remote (setPairs records) 0
    (t.1, if t.2.2.isSome then [] else t.2.1, t.2.2)

/-! ### DeleteRecords -/

/-- The `DeleteRecords` inner-loop match: name, native type and data of a
fetched record must equal the input's translated form (TTL is not
consulted). -/
def valueMatch (raw m : metanameRR) : Bool :=
  raw.Name == m.Name && raw.Typ == m.Typ && raw.Data == m.Data

/-- The `DeleteRecords` inner loop for one translated input record: scan
all fetched records, delete every value match by reference, appending the
input record to the result per deletion; a remote failure aborts. -/
def deleteInner (fail : Nat → Bool) (m : metanameRR) (orig : GenericRecord) :
    List metanameRR → Nat → List RemoteCall × List GenericRecord × Option GoErr
  | [], _ => ([], [], none)
  | raw :: rest, cnt =>
    if valueMatch raw m then
      if fail cnt then ([RemoteCall.delete raw.Reference], [], some GoErr.remoteErr)
      else
        let t := deleteInner fail m orig rest (cnt + 1)
        (RemoteCall.delete raw.Reference :: t.1, orig :: t.2.1, t.2.2)
    else deleteInner fail m orig rest cnt

/-- The `DeleteRecords` outer loop: a record that fails to parse aborts
with a parse error; a parsed record outside the type switch is skipped;
results accumulate across input records. -/
def deleteGo (fail : Nat → Bool) (remote : List metanameRR) :
    List GenericRecord → Nat → List RemoteCall × List GenericRecord × Option GoErr
  | [], _ => ([], [], none)
  | GenericRecord.malformed :: _, _ => ([], [], some GoErr.parseErr)
  | r :: rest, cnt =>
    match toNative r with
    | none => deleteGo fail remote rest cnt
    | some m =>
      let inner := deleteInner fail m r remote cnt
      match inner.2.2 with
      | some e => (inner.1, inner.2.1, some e)
      | none =>
        let t := deleteGo fail remote rest (cnt + inner.2.1.length)
        (inner.1 ++ t.1, inner.2.1 ++ t.2.1, t.2.2)

/-- `DeleteRecords`: a parse error returns `nil, err` (accumulated results
are discarded); a remote error returns the accumulated deletions together
with the error. -/
def deleteRecords (fail : Nat → Bool) (remote : List metanameRR) (records : List GenericRecord) :
    List RemoteCall × List GenericRecord × Option GoErr :=
  let t := deleteGo fail remote records 0
  (t.1, if t.2.2 == some GoErr.parseErr then [] else t.2.1, t.2.2)

/-- The fetched records an input record value-matches (the targets of its
deletions); empty for kinds outside the type switch. -/
def recMatches (remote : List metanameRR) (r : GenericRecord) : List metanameRR :=
  match toNative r with
  | some m => remote.filter (fun raw => valueMatch raw m)
  | none => []

/-! ### Lemmas on the netip model -/

theorem splitOnDot_no_dot {a : List Char} (h : '.' ∉ a) : splitOnDot a = [a] := by
  induction a with
  | nil => rfl
  | cons c rest ih =>
    have hc : ¬ c = '.' := fun hc => h (hc ▸ List.mem_cons_self c rest)
    have hr : '.' ∉ rest := fun hm => h (List.mem_cons_of_mem _ hm)
    simp [splitOnDot, hc, ih hr]

theorem splitOnDot_append {a t : List Char} (h : '.' ∉ a) :
    splitOnDot (a ++ '.' :: t) = a :: splitOnDot t := by
  induction a with
  | nil => simp [splitOnDot]
  | cons c rest ih =>
    have hc : ¬ c = '.' := fun hc => h (hc ▸ List.mem_cons_self c rest)
    have hr : '.' ∉ rest := fun hm => h (List.mem_cons_of_mem _ hm)
    simp only [List.cons_append, splitOnDot, hc, if_false]
    rw [List.append_eq, ih hr]

set_option maxRecDepth 100000 in
theorem parseField_natDecChars :
    ∀ n : Fin 256, parseField (natDecChars n.val) = some n ∧ '.' ∉ natDecChars n.val := by
  decide

/-- Round trip: parsing the canonical rendering of an address yields the
address back (`netip.ParseAddr (a.String()) = a`). -/
theorem parseAddr_render (a : Addr) : parseAddr a.render = some a := by
  have h0 := parseField_natDecChars a.b0
  have h1 := parseField_natDecChars a.b1
  have h2 := parseField_natDecChars a.b2
  have h3 := parseField_natDecChars a.b3
  show parseAddrChars a.renderChars = some a
  rw [Addr.renderChars, parseAddrChars, splitOnDot_append h0.2, splitOnDot_append h1.2,
    splitOnDot_append h2.2, splitOnDot_no_dot h3.2]
  simp [h0.1, h1.1, h2.1, h3.1]

/-! ### Helper lemmas -/

theorem mem_of_getLast_eq {α : Type} {l : List α} {a : α} (h : l.getLast? = some a) : a ∈ l := by
  rcases List.mem_getLast?_eq_getLast (Option.mem_def.mpr h) with ⟨hne, heq⟩
  exact heq ▸ List.getLast_mem hne

theorem lookupLast_mem {remote : List metanameRR} {k : String} {e : metanameRR}
    (h : lookupLast remote k = some e) : e ∈ remote := by
  induction remote with
  | nil => simp [lookupLast] at h
  | cons r rest ih =>
    rw [lookupLast] at h
    cases hr : lookupLast rest k with
    | some e2 =>
      rw [hr] at h
      exact List.mem_cons_of_mem _ (ih (hr.trans h))
    | none =>
      rw [hr] at h
      by_cases hk : r.key == k
      · simp [hk] at h
        exact h ▸ List.mem_cons_self _ _
      · simp [hk] at h

theorem lookupLast_key {remote : List metanameRR} {k : String} {e : metanameRR}
    (h : lookupLast remote k = some e) : e.key = k := by
  induction remote with
  | nil => simp [lookupLast] at h
  | cons r rest ih =>
    rw [lookupLast] at h
    cases hr : lookupLast rest k with
    | some e2 =>
      rw [hr] at h
      exact ih (hr.trans h)
    | none =>
      rw [hr] at h
      by_cases hk : r.key == k
      · simp only [hk, if_true, Option.some.injEq] at h
        exact h ▸ beq_iff_eq.mp hk
      · simp [hk] at h

theorem mem_keysOf {records : List GenericRecord} {k : String} :
    k ∈ keysOf records ↔ ∃ r ∈ records, r.key = k := by
  induction records with
  | nil => simp [keysOf]
  | cons r rest ih =>
    simp only [keysOf, List.mem_cons, List.mem_filter, ih, Bool.not_eq_eq_eq_not,
      Bool.not_true, beq_eq_false_iff_ne, ne_eq]
    constructor
    · rintro (rfl | ⟨⟨r2, hr2, rfl⟩, _⟩)
      · exact ⟨r, Or.inl rfl, rfl⟩
      · exact ⟨r2, Or.inr hr2, rfl⟩
    · rintro ⟨r2, (rfl | hr2), rfl⟩
      · exact Or.inl rfl
      · by_cases hk : r2.key = r.key
        · exact Or.inl hk
        · exact Or.inr ⟨⟨r2, hr2, rfl⟩, hk⟩

theorem keysOf_nodup (records : List GenericRecord) : (keysOf records).Nodup := by
  induction records with
  | nil => simp [keysOf]
  | cons r rest ih =>
    simp only [keysOf]
    refine List.Nodup.cons ?_ (ih.filter _)
    intro hmem
    rcases List.mem_filter.mp hmem with ⟨_, hp⟩
    simp at hp

theorem lastD_spec {records : List GenericRecord} {k : String} (hk : k ∈ keysOf records) :
    lastD records k ∈ records ∧ (lastD records k).key = k := by
  obtain ⟨r, hr, hkey⟩ := mem_keysOf.mp hk
  have hne : records.filter (fun r => r.key == k) ≠ [] :=
    List.ne_nil_of_mem (List.mem_filter.mpr ⟨hr, by simp [hkey]⟩)
  cases hgl : (records.filter (fun r => r.key == k)).getLast? with
  | none => exact absurd (List.getLast?_eq_none_iff.mp hgl) hne
  | some g =>
    have hmem := mem_of_getLast_eq hgl
    rcases List.mem_filter.mp hmem with ⟨hg, hgk⟩
    have : lastD records k = g := by rw [lastD, hgl]; rfl
    rw [this]
    exact ⟨hg, beq_iff_eq.mp hgk⟩

theorem toNative_key {r : GenericRecord} {m : metanameRR} (h : toNative r = some m) :
    m.key = r.key := by
  cases r <;> simp only [toNative, Option.some.injEq, reduceCtorEq] at h <;> subst h <;> rfl

theorem pairCalls_cases {remote : List metanameRR} {p : String × GenericRecord} {c : RemoteCall}
    (hc : c ∈ pairCalls remote p) :
    ∃ m, toNative p.2 = some m ∧
      ((∃ e, lookupLast remote p.1 = some e ∧ c = RemoteCall.update e.Reference m) ∨
        (lookupLast remote p.1 = none ∧ c = RemoteCall.create m)) := by
  unfold pairCalls at hc
  split at hc
  next existing he =>
    split at hc
    next hm => simp at hc
    next hm =>
      split at hc
      next m hn =>
        rcases List.mem_singleton.mp hc with rfl
        exact ⟨m, hn, Or.inl ⟨existing, he, rfl⟩⟩
      next hn => simp at hc
  next he =>
    split at hc
    next m hn =>
      rcases List.mem_singleton.mp hc with rfl
      exact ⟨m, hn, Or.inr ⟨he, rfl⟩⟩
    next hn => simp at hc

theorem pairCalls_callKey {remote : List metanameRR} {k : String} {r : GenericRecord}
    (hkey : r.key = k) {c : RemoteCall} (hc : c ∈ pairCalls remote (k, r)) :
    c.callKey = some k := by
  rcases pairCalls_cases hc with ⟨m, hm, (⟨e, _, rfl⟩ | ⟨_, rfl⟩)⟩ <;>
    simp [RemoteCall.callKey, toNative_key hm, hkey]

theorem setLoop_allOk (remote : List metanameRR) :
    ∀ (ps : List (String × GenericRecord)) (cnt : Nat),
      setLoop allOk remote ps cnt =
        ((ps.map (pairCalls remote)).flatten, ps.map Prod.snd, none) := by
  intro ps
  induction ps with
  | nil => intro cnt; rfl
  | cons p ps ih =>
    intro cnt
    obtain ⟨k, r⟩ := p
    simp only [setLoop, List.map_cons, List.flatten_cons, allOk, Bool.false_eq_true, if_false, ih]
    split
    next existing he =>
      split
      next hm => simp [pairCalls, he, hm]
      next hm =>
        split
        next m hn => simp [pairCalls, he, hm, hn]
        next hn => simp [pairCalls, he, hm, hn]
    next he =>
      split
      next m hn => simp [pairCalls, he, hn]
      next hn => simp [pairCalls, he, hn]

theorem setLoop_calls_sub {fail : Nat → Bool} {remote : List metanameRR} :
    ∀ {ps : List (String × GenericRecord)} {cnt : Nat} {c : RemoteCall},
      c ∈ (setLoop fail remote ps cnt).1 → ∃ p ∈ ps, c ∈ pairCalls remote p := by
  intro ps
  induction ps with
  | nil => intro cnt c hc; simp [setLoop] at hc
  | cons p ps ih =>
    intro cnt c hc
    obtain ⟨k, r⟩ := p
    simp only [setLoop] at hc
    split at hc
    next existing he =>
      split at hc
      next hm =>
        rcases ih hc with ⟨p2, hp2, hcp⟩
        exact ⟨p2, List.mem_cons_of_mem _ hp2, hcp⟩
      next hm =>
        split at hc
        next m hn =>
          split at hc
          next hf =>
            rcases List.mem_singleton.mp hc with rfl
            refine ⟨(k, r), List.mem_cons_self _ _, ?_⟩
            simp [pairCalls, he, hm, hn]
          next hf =>
            rcases List.mem_cons.mp hc with rfl | hc2
            · refine ⟨(k, r), List.mem_cons_self _ _, ?_⟩
              simp [pairCalls, he, hm, hn]
            · rcases ih hc2 with ⟨p2, hp2, hcp⟩
              exact ⟨p2, List.mem_cons_of_mem _ hp2, hcp⟩
        next hn =>
          rcases ih hc with ⟨p2, hp2, hcp⟩
          exact ⟨p2, List.mem_cons_of_mem _ hp2, hcp⟩
    next he =>
      split at hc
      next m hn =>
        split at hc
        next hf =>
          rcases List.mem_singleton.mp hc with rfl
          refine ⟨(k, r), List.mem_cons_self _ _, ?_⟩
          simp [pairCalls, he, hn]
        next hf =>
          rcases List.mem_cons.mp hc with rfl | hc2
          · refine ⟨(k, r), List.mem_cons_self _ _, ?_⟩
            simp [pairCalls, he, hn]
          · rcases ih hc2 with ⟨p2, hp2, hcp⟩
            exact ⟨p2, List.mem_cons_of_mem _ hp2, hcp⟩
      next hn =>
        rcases ih hc with ⟨p2, hp2, hcp⟩
        exact ⟨p2, List.mem_cons_of_mem _ hp2, hcp⟩

theorem deleteInner_allOk (m : metanameRR) (orig : GenericRecord) :
    ∀ (rem : List metanameRR) (cnt : Nat),
      deleteInner allOk m orig rem cnt =
        ((rem.filter (fun raw => valueMatch raw m)).map (fun raw => RemoteCall.delete raw.Reference),
          (rem.filter (fun raw => valueMatch raw m)).map (fun _ => orig), none) := by
  intro rem
  induction rem with
  | nil => intro cnt; rfl
  | cons raw rest ih =>
    intro cnt
    simp only [deleteInner, allOk, Bool.false_eq_true, if_false, ih]
    by_cases hv : valueMatch raw m
    · simp [hv, List.filter_cons]
    · simp [hv, List.filter_cons]

theorem deleteGo_allOk (remote : List metanameRR) :
    ∀ (records : List GenericRecord) (cnt : Nat),
      (∀ r ∈ records, r.isMalformed = false) →
      deleteGo allOk remote records cnt =
        ((records.map (fun r => (recMatches remote r).map (fun raw => RemoteCall.delete raw.Reference))).flatten,
          (records.map (fun r => (recMatches remote r).map (fun _ => r))).flatten, none) := by
  intro records
  induction records with
  | nil => intro cnt h; rfl
  | cons r rest ih =>
    intro cnt h
    have hr : r.isMalformed = false := h r (List.mem_cons_self _ _)
    have hrest : ∀ x ∈ rest, x.isMalformed = false := fun x hx => h x (List.mem_cons_of_mem _ hx)
    have ih2 : ∀ cnt2, deleteGo allOk remote rest cnt2 =
        ((rest.map (fun r => (recMatches remote r).map (fun raw => RemoteCall.delete raw.Reference))).flatten,
          (rest.map (fun r => (recMatches remote r).map (fun _ => r))).flatten, none) :=
      fun cnt2 => ih cnt2 hrest
    cases r with
    | malformed => simp [GenericRecord.isMalformed] at hr
    | address n t ip =>
      simp [deleteGo, toNative, deleteInner_allOk, recMatches, ih2]
    | cname n t tgt =>
      simp [deleteGo, toNative, deleteInner_allOk, recMatches, ih2]
    | txt n t tx =>
      simp [deleteGo, toNative, deleteInner_allOk, recMatches, ih2]
    | other n t ty d =>
      simp [deleteGo, toNative, recMatches, ih2]

theorem deleteInner_err (fail : Nat → Bool) (m : metanameRR) (orig : GenericRecord) :
    ∀ (rem : List metanameRR) (cnt : Nat),
      ((deleteInner fail m orig rem cnt).2.2 = none →
        (deleteInner fail m orig rem cnt).1.length = (deleteInner fail m orig rem cnt).2.1.length) ∧
      (∀ e, (deleteInner fail m orig rem cnt).2.2 = some e → e = GoErr.remoteErr ∧
        (deleteInner fail m orig rem cnt).1.length = (deleteInner fail m orig rem cnt).2.1.length + 1) := by
  intro rem
  induction rem with
  | nil =>
    intro cnt
    exact ⟨fun _ => rfl, fun e he => by simp [deleteInner] at he⟩
  | cons raw rest ih =>
    intro cnt
    simp only [deleteInner]
    by_cases hv : valueMatch raw m
    · rw [if_pos hv]
      by_cases hf : fail cnt
      · rw [if_pos hf]
        refine ⟨fun hn => by simp at hn, fun e he => ?_⟩
        have : e = GoErr.remoteErr := by simpa using he.symm
        exact ⟨this, by simp⟩
      · rw [if_neg hf]
        refine ⟨fun hn => ?_, fun e he => ?_⟩
        · have := (ih (cnt + 1)).1 (by simpa using hn)
          simpa using this
        · have := (ih (cnt + 1)).2 e (by simpa using he)
          exact ⟨this.1, by simpa using this.2⟩
    · rw [if_neg hv]
      exact ih cnt

theorem deleteGo_err (fail : Nat → Bool) (remote : List metanameRR) :
    ∀ (records : List GenericRecord) (cnt : Nat),
      ((deleteGo fail remote records cnt).2.2 = some GoErr.remoteErr →
        (deleteGo fail remote records cnt).1.length = (deleteGo fail remote records cnt).2.1.length + 1) ∧
      ((deleteGo fail remote records cnt).2.2 ≠ some GoErr.remoteErr →
        (deleteGo fail remote records cnt).1.length = (deleteGo fail remote records cnt).2.1.length) := by
  intro records
  induction records with
  | nil => intro cnt; exact ⟨fun h => by simp [deleteGo] at h, fun _ => rfl⟩
  | cons r rest ih =>
    intro cnt
    cases r with
    | malformed =>
      refine ⟨fun h => ?_, fun _ => rfl⟩
      simp [deleteGo] at h
    | other n t ty d => exact ih cnt
    | address n t ip =>
      simp only [deleteGo, toNative]
      split
      next e hi =>
        rcases (deleteInner_err fail _ _ remote cnt).2 e hi with ⟨rfl, hlen⟩
        exact ⟨fun _ => hlen, fun h => absurd rfl h⟩
      next hi =>
        have hinner := (deleteInner_err fail _ _ remote cnt).1 hi
        refine ⟨fun h => ?_, fun h => ?_⟩
        · have := ((ih _).1 (by simpa using h))
          simp only [List.length_append, hinner, this]
          omega
        · have := ((ih _).2 (by simpa using h))
          simp only [List.length_append, hinner, this]
    | cname n t tgt =>
      simp only [deleteGo, toNative]
      split
      next e hi =>
        rcases (deleteInner_err fail _ _ remote cnt).2 e hi with ⟨rfl, hlen⟩
        exact ⟨fun _ => hlen, fun h => absurd rfl h⟩
      next hi =>
        have hinner := (deleteInner_err fail _ _ remote cnt).1 hi
        refine ⟨fun h => ?_, fun h => ?_⟩
        · have := ((ih _).1 (by simpa using h))
          simp only [List.length_append, hinner, this]
          omega
        · have := ((ih _).2 (by simpa using h))
          simp only [List.length_append, hinner, this]
    | txt n t tx =>
      simp only [deleteGo, toNative]
      split
      next e hi =>
        rcases (deleteInner_err fail _ _ remote cnt).2 e hi with ⟨rfl, hlen⟩
        exact ⟨fun _ => hlen, fun h => absurd rfl h⟩
      next hi =>
        have hinner := (deleteInner_err fail _ _ remote cnt).1 hi
        refine ⟨fun h => ?_, fun h => ?_⟩
        · have := ((ih _).1 (by simpa using h))
          simp only [List.length_append, hinner, this]
          omega
        · have := ((ih _).2 (by simpa using h))
          simp only [List.length_append, hinner, this]

theorem appendGo_malformed :
    ∀ (records : List GenericRecord) (cnt : Nat), GenericRecord.malformed ∈ records →
      (appendGo allOk records cnt).2.2 = some GoErr.parseErr := by
  intro records
  induction records with
  | nil => intro cnt h; simp at h
  | cons r rest ih =>
    intro cnt h
    cases r with
    | malformed => rfl
    | address n t ip =>
      have hm : GenericRecord.malformed ∈ rest := by
        rcases List.mem_cons.mp h with h1 | h1
        · simp at h1
        · exact h1
      simp only [appendGo, toNative, allOk, Bool.false_eq_true, if_false]
      exact ih _ hm
    | cname n t tgt =>
      have hm : GenericRecord.malformed ∈ rest := by
        rcases List.mem_cons.mp h with h1 | h1
        · simp at h1
        · exact h1
      simp only [appendGo, toNative, allOk, Bool.false_eq_true, if_false]
      exact ih _ hm
    | txt n t tx =>
      have hm : GenericRecord.malformed ∈ rest := by
        rcases List.mem_cons.mp h with h1 | h1
        · simp at h1
        · exact h1
      simp only [appendGo, toNative, allOk, Bool.false_eq_true, if_false]
      exact ih _ hm
    | other n t ty d =>
      have hm : GenericRecord.malformed ∈ rest := by
        rcases List.mem_cons.mp h with h1 | h1
        · simp at h1
        · exact h1
      simp only [appendGo, toNative]
      exact ih _ hm

theorem appendGo_abort (fail : Nat → Bool) :
    ∀ (xs ys : List GenericRecord) (cnt : Nat),
      (appendGo fail xs cnt).2.2 = none →
      (appendGo fail (xs ++ GenericRecord.malformed :: ys) cnt).1 = (appendGo fail xs cnt).1 ∧
      (appendGo fail (xs ++ GenericRecord.malformed :: ys) cnt).2.2 = some GoErr.parseErr := by
  intro xs
  induction xs with
  | nil => intro ys cnt h; exact ⟨rfl, rfl⟩
  | cons r xs ih =>
    intro ys cnt h
    cases r with
    | malformed => simp [appendGo] at h
    | other n t ty d => exact ih ys cnt h
    | address n t ip =>
      by_cases hf : fail cnt
      · exfalso; simp [appendGo, toNative, hf] at h
      · have h2 : (appendGo fail xs (cnt + 1)).2.2 = none := by
          simpa [appendGo, toNative, hf] using h
        have hr := ih ys (cnt + 1) h2
        constructor
        · simp [List.cons_append, appendGo, toNative, hf, hr.1]
        · simpa [List.cons_append, appendGo, toNative, hf] using hr.2
    | cname n t tgt =>
      by_cases hf : fail cnt
      · exfalso; simp [appendGo, toNative, hf] at h
      · have h2 : (appendGo fail xs (cnt + 1)).2.2 = none := by
          simpa [appendGo, toNative, hf] using h
        have hr := ih ys (cnt + 1) h2
        constructor
        · simp [List.cons_append, appendGo, toNative, hf, hr.1]
        · simpa [List.cons_append, appendGo, toNative, hf] using hr.2
    | txt n t tx =>
      by_cases hf : fail cnt
      · exfalso; simp [appendGo, toNative, hf] at h
      · have h2 : (appendGo fail xs (cnt + 1)).2.2 = none := by
          simpa [appendGo, toNative, hf] using h
        have hr := ih ys (cnt + 1) h2
        constructor
        · simp [List.cons_append, appendGo, toNative, hf, hr.1]
        · simpa [List.cons_append, appendGo, toNative, hf] using hr.2

theorem callsForKey_all {tr : List RemoteCall} {k : String}
    (h : ∀ c ∈ tr, c.callKey = some k) : callsForKey tr k = tr :=
  List.filter_eq_self.mpr (fun c hc => by simp [h c hc])

theorem callsForKey_none {tr : List RemoteCall} {k : String}
    (h : ∀ c ∈ tr, c.callKey ≠ some k) : callsForKey tr k = [] :=
  List.filter_eq_nil_iff.mpr (fun c hc => by simp [h c hc])

theorem callsForKey_setPairs (remote : List metanameRR) (records : List GenericRecord)
    {k : String} (hk : k ∈ keysOf records) :
    callsForKey (((setPairs records).map (pairCalls remote)).flatten) k =
      pairCalls remote (k, lastD records k) := by
  have hnd := keysOf_nodup records
  rcases List.append_of_mem hk with ⟨s, t, hst⟩
  have hks : k ∉ s ∧ k ∉ t := by
    rw [hst] at hnd
    rcases List.nodup_append.mp hnd with ⟨_, h2, hd⟩
    exact ⟨fun hm => hd hm (List.mem_cons_self k t), (List.nodup_cons.mp h2).1⟩
  have hsub : ∀ k2 ∈ keysOf records, ∀ c ∈ pairCalls remote (k2, lastD records k2),
      c.callKey = some k2 :=
    fun k2 hk2 c hc => pairCalls_callKey (lastD_spec hk2).2 hc
  have hside : ∀ (u : List String), (∀ k2 ∈ u, k2 ∈ keysOf records) → k ∉ u →
      callsForKey ((u.map (fun k2 => pairCalls remote (k2, lastD records k2))).flatten) k = [] := by
    intro u hu hku
    apply callsForKey_none
    intro c hc
    rcases List.mem_flatten.mp hc with ⟨l, hl, hcl⟩
    rcases List.mem_map.mp hl with ⟨k2, hk2, rfl⟩
    rw [hsub k2 (hu k2 hk2) c hcl]
    intro hcontra
    obtain rfl : k2 = k := by simpa using hcontra
    exact hku hk2
  rw [setPairs, List.map_map]
  have hcomp : (pairCalls remote ∘ fun k2 => (k2, lastD records k2)) =
      fun k2 => pairCalls remote (k2, lastD records k2) := rfl
  rw [hcomp, hst, List.map_append, List.map_cons, List.flatten_append, List.flatten_cons]
  rw [callsForKey, List.filter_append, List.filter_append]
  have h1 : callsForKey ((s.map (fun k2 => pairCalls remote (k2, lastD records k2))).flatten) k = [] :=
    hside s (fun k2 hk2 => hst ▸ List.mem_append_left _ hk2) hks.1
  have h2 : callsForKey ((t.map (fun k2 => pairCalls remote (k2, lastD records k2))).flatten) k = [] :=
    hside t (fun k2 hk2 => hst ▸ List.mem_append_right _ (List.mem_cons_of_mem _ hk2)) hks.2
  have h3 : callsForKey (pairCalls remote (k, lastD records k)) k = pairCalls remote (k, lastD records k) :=
    callsForKey_all (fun c hc => hsub k hk c hc)
  rw [callsForKey] at h1 h2 h3
  rw [h1, h2, h3]
  simp

/-! ### Claim theorems -/

/-- Claim C6: for every listing whose remote fetch succeeds, each fetched
native record whose type is unsupported or whose data fails type-specific
parsing is silently omitted from the returned list, its presence never
causes an error, and all other records are still returned. -/
theorem c6_list_omission (xs ys : List metanameRR) (bad : metanameRR)
    (hbad : toGeneric bad = none) :
    getRecords (xs ++ bad :: ys) = getRecords (xs ++ ys) ∧
    listRecords (Except.ok (xs ++ bad :: ys)) = Except.ok (getRecords (xs ++ ys)) ∧
    ∀ rec ∈ xs ++ bad :: ys, ∀ g, toGeneric rec = some g → g ∈ getRecords (xs ++ bad :: ys) := by
  refine ⟨?_, ?_, ?_⟩
  · simp [getRecords, List.filterMap_append, List.filterMap_cons, hbad]
  · simp [listRecords, getRecords, List.filterMap_append, List.filterMap_cons, hbad]
  · intro rec hrec g hg
    exact List.mem_filterMap.mpr ⟨rec, hrec, hg⟩

/-- Claim C6 witness: an `A` record whose data is not an IP literal is
dropped from the listing while the well-formed record is kept, with no
error. -/
theorem c6_witness :
    toGeneric ⟨"bad", "A", 300, "not-an-ip", "r0"⟩ = none ∧
    getRecords [⟨"good", "TXT", 60, "v", "r1"⟩, ⟨"bad", "A", 300, "not-an-ip", "r0"⟩] =
      getRecords [⟨"good", "TXT", 60, "v", "r1"⟩] := by
  have h : toGeneric ⟨"bad", "A", 300, "not-an-ip", "r0"⟩ = none := by decide
  have h2 := (c6_list_omission [⟨"good", "TXT", 60, "v", "r1"⟩] [] ⟨"bad", "A", 300, "not-an-ip", "r0"⟩ h).1
  exact ⟨h, by simpa using h2⟩

/-- Claim C7: translating a well-formed generic record of a supported kind
with a whole-second TTL to the native representation (as Append does) and
back (as List does) yields the original record. -/
theorem c7_round_trip (g : GenericRecord) (m : metanameRR)
    (hm : toNative g = some m) (ht : g.ttlNs % 1000000000 = 0) :
    toGeneric m = some g := by
  cases g with
  | address n t ip =>
    have hdvd : 1000000000 ∣ t := Nat.dvd_of_mod_eq_zero (by simpa [GenericRecord.ttlNs] using ht)
    obtain rfl : m = ⟨n, "A", t / 1000000000, ip.render, ""⟩ := by
      simpa [toNative] using hm.symm
    have hc : t / 1000000000 * 1000000000 = t := Nat.div_mul_cancel hdvd
    simp [toGeneric, parseAddr_render, hc]
  | cname n t tgt =>
    have hdvd : 1000000000 ∣ t := Nat.dvd_of_mod_eq_zero (by simpa [GenericRecord.ttlNs] using ht)
    obtain rfl : m = ⟨n, "CNAME", t / 1000000000, tgt, ""⟩ := by
      simpa [toNative] using hm.symm
    have hc : t / 1000000000 * 1000000000 = t := Nat.div_mul_cancel hdvd
    simp [toGeneric, hc]
  | txt n t tx =>
    have hdvd : 1000000000 ∣ t := Nat.dvd_of_mod_eq_zero (by simpa [GenericRecord.ttlNs] using ht)
    obtain rfl : m = ⟨n, "TXT", t / 1000000000, tx, ""⟩ := by
      simpa [toNative] using hm.symm
    have hc : t / 1000000000 * 1000000000 = t := Nat.div_mul_cancel hdvd
    simp [toGeneric, hc]
  | other n t ty d => simp [toNative] at hm
  | malformed => simp [toNative] at hm

/-- Claim C7 witness: a concrete address record with a whole-second TTL
round-trips through the native form. -/
theorem c7_witness :
    toNative (GenericRecord.address ("a") 300000000000 ⟨8, 8, 8, 8⟩) =
      some ⟨"a", "A", 300, Addr.render ⟨8, 8, 8, 8⟩, ""⟩ ∧
    (300000000000 : Nat) % 1000000000 = 0 ∧
    toGeneric ⟨"a", "A", 300, Addr.render ⟨8, 8, 8, 8⟩, ""⟩ =
      some (GenericRecord.address ("a") 300000000000 ⟨8, 8, 8, 8⟩) :=
  ⟨rfl, rfl, c7_round_trip (GenericRecord.address ("a") 300000000000 ⟨8, 8, 8, 8⟩)
    ⟨"a", "A", 300, Addr.render ⟨8, 8, 8, 8⟩, ""⟩ rfl rfl⟩

/-- Claim C9: for every address record translated to native form by Append
or Set, the native data field is the IP address's canonical string form and
the native TTL is the duration converted to whole seconds with the
fractional part truncated (1.5 seconds becomes 1). -/
theorem c9_address_translation :
    (∀ (n : String) (t : Nat) (ip : Addr),
      toNative (GenericRecord.address n t ip) = some ⟨n, "A", t / 1000000000, ip.render, ""⟩) ∧
    (∀ (n : String) (t : Nat) (ip : Addr),
      appendRecords allOk [GenericRecord.address n t ip] =
        ([RemoteCall.create ⟨n, "A", t / 1000000000, ip.render, ""⟩],
          [GenericRecord.address n t ip], none)) ∧
    (∀ (n : String) (t : Nat) (ip : Addr) (remote : List metanameRR),
      lookupLast remote (keyStr n ("A")) = none →
      (setRecords allOk remote [GenericRecord.address n t ip]).1 =
        [RemoteCall.create ⟨n, "A", t / 1000000000, ip.render, ""⟩]) ∧
    (∀ (n : String) (ip : Addr),
      toNative (GenericRecord.address n 1500000000 ip) = some ⟨n, "A", 1, ip.render, ""⟩) := by
  refine ⟨fun n t ip => rfl, fun n t ip => rfl, ?_, fun n ip => rfl⟩
  intro n t ip remote hlk
  have hkey : (GenericRecord.address n t ip).key = keyStr n ("A") := rfl
  have hnm : ([GenericRecord.address n t ip].any GenericRecord.isMalformed) = false := by
    simp [GenericRecord.isMalformed]
  simp only [setRecords, hnm, Bool.false_eq_true, if_false, setLoop_allOk]
  simp [setPairs, keysOf, lastD, pairCalls, hkey, hlk, toNative, List.filter]

/-- Claim C9 witness: instantiating the Set conjunct at a concrete record
against an empty remote zone. -/
theorem c9_witness :
    (setRecords allOk [] [GenericRecord.address ("x") 1500000000 ⟨127, 0, 0, 1⟩]).1 =
      [RemoteCall.create ⟨"x", "A", 1, Addr.render ⟨127, 0, 0, 1⟩, ""⟩] := by
  have h := c9_address_translation.2.2.1 ("x") 1500000000 ⟨127, 0, 0, 1⟩ [] rfl
  simpa using h

/-- Claim C3 counterexample: an input whose kind has no supported native
encoding (an MX-style record, which parses fine) is silently skipped by
Append — no error is reported and the remaining entries are still
processed, contradicting the claimed InvalidRecord abort. -/
theorem c3_counterexample :
    appendRecords allOk
      [GenericRecord.other ("m") 0 ("MX") ("10 mail.example."),
        GenericRecord.txt ("a") 300000000000 ("v")] =
      ([RemoteCall.create ⟨"a", "TXT", 300, "v", ""⟩],
        [GenericRecord.txt ("a") 300000000000 ("v")], none) := by
  rfl

/-- Claim C3 amended: Append aborts with a parse error (returning a nil
list) at the first input whose `RR().Parse()` fails — the malformed entry
and every entry after it cause no remote call, so the full trace equals the
trace of the error-free prefix before it, under any failure oracle; an
input that parses but has no supported native encoding is silently skipped
without error and processing continues. -/
theorem c3_append_invalid (records : List GenericRecord)
    (hmem : GenericRecord.malformed ∈ records) :
    ((appendRecords allOk records).2.2 = some GoErr.parseErr ∧
      (appendRecords allOk records).2.1 = []) ∧
    (∀ (fail : Nat → Bool) (xs ys : List GenericRecord),
      (appendGo fail xs 0).2.2 = none →
      (appendRecords fail (xs ++ GenericRecord.malformed :: ys)).1 = (appendGo fail xs 0).1 ∧
      (appendRecords fail (xs ++ GenericRecord.malformed :: ys)).2.2 = some GoErr.parseErr ∧
      (appendRecords fail (xs ++ GenericRecord.malformed :: ys)).2.1 = []) ∧
    (∀ (fail : Nat → Bool) (n : String) (t : Nat) (ty d : String)
        (rest : List GenericRecord) (cnt : Nat),
      appendGo fail (GenericRecord.other n t ty d :: rest) cnt = appendGo fail rest cnt) := by
  refine ⟨?_, ?_, fun fail n t ty d rest cnt => rfl⟩
  · have h := appendGo_malformed records 0 hmem
    exact ⟨by simpa [appendRecords] using h, by simp [appendRecords, h]⟩
  · intro fail xs ys h
    have habort := appendGo_abort fail xs ys 0 h
    refine ⟨?_, ?_, ?_⟩
    · simpa [appendRecords] using habort.1
    · simpa [appendRecords] using habort.2
    · simp [appendRecords, habort.2]

/-- Claim C3 amended witness: a malformed record placed between two good
ones makes Append report a parse error with a nil result list, and the
call trace stops at the entry before it — the later record is never
created. -/
theorem c3_witness :
    ((appendRecords allOk [GenericRecord.txt ("a") 0 ("v"), GenericRecord.malformed]).2.2 =
      some GoErr.parseErr ∧
      (appendRecords allOk [GenericRecord.txt ("a") 0 ("v"), GenericRecord.malformed]).2.1 = []) ∧
    ((appendRecords allOk
        ([GenericRecord.txt ("a") 0 ("v")] ++ GenericRecord.malformed ::
          [GenericRecord.txt ("b") 0 ("w")])).1 =
      (appendGo allOk [GenericRecord.txt ("a") 0 ("v")] 0).1 ∧
      (appendRecords allOk
        ([GenericRecord.txt ("a") 0 ("v")] ++ GenericRecord.malformed ::
          [GenericRecord.txt ("b") 0 ("w")])).2.2 = some GoErr.parseErr) := by
  have h := c3_append_invalid [GenericRecord.txt ("a") 0 ("v"), GenericRecord.malformed] (by decide)
  have h2 := h.2.1 allOk [GenericRecord.txt ("a") 0 ("v")] [GenericRecord.txt ("b") 0 ("w")] (by decide)
  exact ⟨h.1, h2.1, h2.2.1⟩

/-- Claim C2 counterexample: Append of two records where the second create
fails returns an empty list together with the error — the first record,
already created remotely (its create call is in the trace), is not
reported, contradicting the claim that partial results are returned. -/
theorem c2_counterexample :
    appendRecords (fun k => k == 1)
      [GenericRecord.txt ("a") 300000000000 ("x"), GenericRecord.txt ("b") 300000000000 ("y")] =
      ([RemoteCall.create ⟨"a", "TXT", 300, "x", ""⟩, RemoteCall.create ⟨"b", "TXT", 300, "y", ""⟩],
        [], some GoErr.remoteErr) := by
  rfl

/-- Claim C2 amended: Delete returns the accumulated partial results
alongside a remote-write error (one returned entry per successful delete
call), while Append and Set return an empty (nil) list alongside any
error, discarding the records already processed. -/
theorem c2_error_results (fail : Nat → Bool) (remote : List metanameRR)
    (records : List GenericRecord) :
    (∀ e, (appendRecords fail records).2.2 = some e → (appendRecords fail records).2.1 = []) ∧
    (∀ e, (setRecords fail remote records).2.2 = some e → (setRecords fail remote records).2.1 = []) ∧
    ((deleteRecords fail remote records).2.2 = some GoErr.remoteErr →
      (deleteRecords fail remote records).1.length = (deleteRecords fail remote records).2.1.length + 1) := by
  refine ⟨?_, ?_, ?_⟩
  · intro e he
    simp only [appendRecords] at he ⊢
    simp [he]
  · intro e he
    by_cases hnm : records.any GenericRecord.isMalformed
    · simp [setRecords, hnm]
    · simp only [setRecords, hnm, Bool.false_eq_true, if_false] at he ⊢
      simp [he]
  · intro h
    simp only [deleteRecords] at h ⊢
    have hlen := (deleteGo_err fail remote records 0).1 h
    simp [h, hlen]

/-- Claim C2 amended witness: a Delete over a zone with two value-equal
records where the second delete call fails returns the one record deleted
before the failure, alongside the error. -/
theorem c2_witness :
    (deleteRecords (fun k => k == 1)
        [⟨"a", "TXT", 300, "x", "r1"⟩, ⟨"a", "TXT", 300, "x", "r2"⟩]
        [GenericRecord.txt ("a") 300000000000 ("x")]).2.2 = some GoErr.remoteErr ∧
    (deleteRecords (fun k => k == 1)
        [⟨"a", "TXT", 300, "x", "r1"⟩, ⟨"a", "TXT", 300, "x", "r2"⟩]
        [GenericRecord.txt ("a") 300000000000 ("x")]).1.length =
      (deleteRecords (fun k => k == 1)
        [⟨"a", "TXT", 300, "x", "r1"⟩, ⟨"a", "TXT", 300, "x", "r2"⟩]
        [GenericRecord.txt ("a") 300000000000 ("x")]).2.1.length + 1 :=
  ⟨by rfl, (c2_error_results (fun k => k == 1)
      [⟨"a", "TXT", 300, "x", "r1"⟩, ⟨"a", "TXT", 300, "x", "r2"⟩]
      [GenericRecord.txt ("a") 300000000000 ("x")]).2.2 (by rfl)⟩

/-- Claim C1 counterexample: the fetched zone holds two records under one
key; the input matches the first fetched record (same key, type, TTL and
data), yet Set issues an update — the existing-record map retains only the
last fetched record per key, so the matching record is shadowed. -/
theorem c1_counterexample :
    recordsMatch ⟨"n", "TXT", 300, "v", "r1"⟩ (GenericRecord.txt ("n") 300000000000 ("v")) = true ∧
    metanameRR.key ⟨"n", "TXT", 300, "v", "r1"⟩ = (GenericRecord.txt ("n") 300000000000 ("v")).key ∧
    (setRecords allOk
        [⟨"n", "TXT", 300, "v", "r1"⟩, ⟨"n", "TXT", 300, "w", "r2"⟩]
        [GenericRecord.txt ("n") 300000000000 ("v")]).1 =
      [RemoteCall.update ("r2") ⟨"n", "TXT", 300, "v", ""⟩] := by
  refine ⟨rfl, rfl, ?_⟩
  rfl

/-- Claim C1 amended: for every Set call and every input key whose
surviving record has a supported kind, reconciliation compares against the
single retained remote record for that key (the last fetched when the zone
holds duplicate keys): if it matches, no create or update call is issued
for the key; if it does not match, exactly one update is issued against the
retained record's reference; if no remote record has the key, exactly one
create is issued. -/
theorem c1_set_per_key (remote : List metanameRR) (records : List GenericRecord)
    (hnm : records.any GenericRecord.isMalformed = false)
    (k : String) (hk : k ∈ keysOf records)
    (m : metanameRR) (hm : toNative (lastD records k) = some m) :
    callsForKey (setRecords allOk remote records).1 k =
      match lookupLast remote k with
      | some e => if recordsMatch e (lastD records k) then [] else [RemoteCall.update e.Reference m]
      | none => [RemoteCall.create m] := by
  have htr : (setRecords allOk remote records).1 =
      ((setPairs records).map (pairCalls remote)).flatten := by
    simp [setRecords, hnm, setLoop_allOk]
  rw [htr, callsForKey_setPairs remote records hk]
  have hpc : pairCalls remote (k, lastD records k) =
      match lookupLast remote k with
      | some e =>
        if recordsMatch e (lastD records k) then []
        else
          match toNative (lastD records k) with
          | some m2 => [RemoteCall.update e.Reference m2]
          | none => []
      | none =>
        match toNative (lastD records k) with
        | some m2 => [RemoteCall.create m2]
        | none => [] := rfl
  rw [hpc]
  split
  next e he =>
    split
    next hmatch => rfl
    next hmatch => simp [hm]
  next he => simp [hm]

/-- Claim C1 amended witness: a single input identical to the retained
remote record yields no create or update call for its key. -/
theorem c1_witness :
    ("n|TXT" ∈ keysOf [GenericRecord.txt ("n") 300000000000 ("v")]) ∧
    callsForKey (setRecords allOk [⟨"n", "TXT", 300, "v", "r1"⟩]
        [GenericRecord.txt ("n") 300000000000 ("v")]).1 ("n|TXT") = [] :=
  ⟨by decide,
    c1_set_per_key [⟨"n", "TXT", 300, "v", "r1"⟩] [GenericRecord.txt ("n") 300000000000 ("v")]
      (by decide) ("n|TXT") (by decide) ⟨"n", "TXT", 300, "v", ""⟩ (by decide)⟩

/-- Claim C4: Set never deletes, and never creates or updates under a key
absent from the input — every fetched remote record whose key matches no
input record (and whose reference is not shared with another record) has no
call issued against it, under any failure oracle. -/
theorem c4_set_frame (fail : Nat → Bool) (remote : List metanameRR)
    (records : List GenericRecord) (rr : metanameRR) (hrr : rr ∈ remote)
    (hk : rr.key ∉ keysOf records)
    (href : ∀ e ∈ remote, e.Reference = rr.Reference → e.key = rr.key) :
    ∀ c ∈ (setRecords fail remote records).1,
      (∀ ref, c ≠ RemoteCall.delete ref) ∧
      (∀ ref m2, c = RemoteCall.update ref m2 → ref ≠ rr.Reference) ∧
      (∀ m2, c = RemoteCall.create m2 → m2.key ≠ rr.key) := by
  intro c hc
  by_cases hnm : records.any GenericRecord.isMalformed
  · simp [setRecords, hnm] at hc
  · have hc2 : c ∈ (setLoop fail remote (setPairs records) 0).1 := by
      simpa [setRecords, hnm] using hc
    rcases setLoop_calls_sub hc2 with ⟨p, hp, hcp⟩
    rcases List.mem_map.mp (by simpa [setPairs] using hp) with ⟨k2, hk2, rfl⟩
    rcases pairCalls_cases hcp with ⟨m, hm, (⟨e, he, rfl⟩ | ⟨he, rfl⟩)⟩
    · refine ⟨fun ref h => by simp at h, ?_, fun m2 h => by simp at h⟩
      intro ref m2 hcu hrefeq
      obtain ⟨rfl, rfl⟩ : e.Reference = ref ∧ m = m2 := by
        injection hcu with h1 h2; exact ⟨h1, h2⟩
      have hekey : e.key = k2 := lookupLast_key he
      have hemem : e ∈ remote := lookupLast_mem he
      have hrrk : e.key = rr.key := href e hemem hrefeq
      exact hk (hrrk ▸ hekey ▸ hk2)
    · refine ⟨fun ref h => by simp at h, fun ref m2 h => by simp at h, ?_⟩
      intro m2 hcc hkey
      obtain rfl : m = m2 := by injection hcc
      have hmk : m.key = (lastD records k2).key := toNative_key hm
      have hk2key : (lastD records k2).key = k2 := (lastD_spec hk2).2
      apply hk
      rw [← hkey, hmk, hk2key]
      exact hk2

/-- Claim C4 witness: with one remote record under a key absent from the
input, the single call Set issues is a create for the input's key, not a
delete and not an update of the untouched record's reference. -/
theorem c4_witness :
    RemoteCall.create ⟨"n", "TXT", 300, "v", ""⟩ ≠ RemoteCall.delete ("r9") ∧
    metanameRR.key ⟨"n", "TXT", 300, "v", ""⟩ ≠ metanameRR.key ⟨"z", "TXT", 300, "q", "r9"⟩ := by
  have h := c4_set_frame allOk [⟨"z", "TXT", 300, "q", "r9"⟩]
    [GenericRecord.txt ("n") 300000000000 ("v")] ⟨"z", "TXT", 300, "q", "r9"⟩
    (by decide) (by decide) (by decide)
    (RemoteCall.create ⟨"n", "TXT", 300, "v", ""⟩) (by decide)
  exact ⟨h.1 ("r9"), h.2.2 ⟨"n", "TXT", 300, "v", ""⟩ rfl⟩

theorem deleteRecords_allOk (remote : List metanameRR) (records : List GenericRecord)
    (hnm : ∀ r ∈ records, r.isMalformed = false) :
    deleteRecords allOk remote records =
      ((records.map (fun r => (recMatches remote r).map (fun raw => RemoteCall.delete raw.Reference))).flatten,
        (records.map (fun r => (recMatches remote r).map (fun _ => r))).flatten, none) := by
  simp [deleteRecords, deleteGo_allOk remote records 0 hnm]

theorem deleteTrace_mem {remote : List metanameRR} {records : List GenericRecord}
    (hnm : ∀ r ∈ records, r.isMalformed = false)
    {r : GenericRecord} (hr : r ∈ records) {m : metanameRR} (hm : toNative r = some m)
    {raw : metanameRR} (hraw : raw ∈ remote) (hv : valueMatch raw m = true) :
    RemoteCall.delete raw.Reference ∈ (deleteRecords allOk remote records).1 := by
  rw [deleteRecords_allOk remote records hnm]
  apply List.mem_flatten.mpr
  refine ⟨(recMatches remote r).map (fun raw => RemoteCall.delete raw.Reference),
    List.mem_map_of_mem _ hr, ?_⟩
  have hmem : raw ∈ recMatches remote r := by
    rw [recMatches, hm]
    exact List.mem_filter.mpr ⟨hraw, hv⟩
  exact List.mem_map_of_mem _ hmem

/-- Claim C5: in a successful Delete, every fetched remote record whose
name, native type and data equal a supported-kind input's translated form
receives a delete call (exact value equality), every issued call is a
delete, and the returned list has exactly one entry per issued delete
call. -/
theorem c5_delete_by_value (remote : List metanameRR) (records : List GenericRecord)
    (hnm : ∀ r ∈ records, r.isMalformed = false) :
    (deleteRecords allOk remote records).2.2 = none ∧
    (deleteRecords allOk remote records).2.1.length = (deleteRecords allOk remote records).1.length ∧
    (∀ c ∈ (deleteRecords allOk remote records).1, c.isDelete = true) ∧
    (∀ r ∈ records, ∀ m, toNative r = some m → ∀ raw ∈ remote, valueMatch raw m = true →
      RemoteCall.delete raw.Reference ∈ (deleteRecords allOk remote records).1) := by
  have hstruct := deleteRecords_allOk remote records hnm
  refine ⟨by rw [hstruct], ?_, ?_, ?_⟩
  · rw [hstruct]
    simp only [List.length_flatten, List.map_map]
    apply congrArg List.sum
    apply List.map_congr_left
    intro r hr
    simp [Function.comp]
  · intro c hc
    rw [hstruct] at hc
    rcases List.mem_flatten.mp hc with ⟨l, hl, hcl⟩
    rcases List.mem_map.mp hl with ⟨r, _, rfl⟩
    rcases List.mem_map.mp hcl with ⟨raw, _, rfl⟩
    rfl
  · intro r hr m hm raw hraw hv
    exact deleteTrace_mem hnm hr hm hraw hv

/-- Claim C5 witness: one input record deletes both value-equal duplicate
remote records, with one returned entry per deletion. -/
theorem c5_witness :
    (deleteRecords allOk [⟨"d", "TXT", 300, "v", "r1"⟩, ⟨"d", "TXT", 300, "v", "r2"⟩]
        [GenericRecord.txt ("d") 300000000000 ("v")]).2.2 = none ∧
    RemoteCall.delete ("r1") ∈
      (deleteRecords allOk [⟨"d", "TXT", 300, "v", "r1"⟩, ⟨"d", "TXT", 300, "v", "r2"⟩]
        [GenericRecord.txt ("d") 300000000000 ("v")]).1 ∧
    RemoteCall.delete ("r2") ∈
      (deleteRecords allOk [⟨"d", "TXT", 300, "v", "r1"⟩, ⟨"d", "TXT", 300, "v", "r2"⟩]
        [GenericRecord.txt ("d") 300000000000 ("v")]).1 := by
  have h := c5_delete_by_value [⟨"d", "TXT", 300, "v", "r1"⟩, ⟨"d", "TXT", 300, "v", "r2"⟩]
    [GenericRecord.txt ("d") 300000000000 ("v")] (by decide)
  refine ⟨h.1, ?_, ?_⟩
  · exact h.2.2.2 (GenericRecord.txt ("d") 300000000000 ("v")) (by decide)
      ⟨"d", "TXT", 300, "v", ""⟩ (by decide) ⟨"d", "TXT", 300, "v", "r1"⟩ (by decide) (by decide)
  · exact h.2.2.2 (GenericRecord.txt ("d") 300000000000 ("v")) (by decide)
      ⟨"d", "TXT", 300, "v", ""⟩ (by decide) ⟨"d", "TXT", 300, "v", "r2"⟩ (by decide) (by decide)

/-- Claim C10: Delete matching ignores TTL — a fetched record whose name,
native type and data equal the input's translated form is deleted even when
its TTL differs, and the match predicate does not consult the TTL field at
all. -/
theorem c10_delete_ignores_ttl (remote : List metanameRR) (records : List GenericRecord)
    (hnm : ∀ r ∈ records, r.isMalformed = false)
    (r : GenericRecord) (hr : r ∈ records) (m : metanameRR) (hm : toNative r = some m)
    (raw : metanameRR) (hraw : raw ∈ remote)
    (hname : raw.Name = m.Name) (htyp : raw.Typ = m.Typ) (hdata : raw.Data = m.Data)
    (httl : raw.Ttl ≠ m.Ttl) :
    RemoteCall.delete raw.Reference ∈ (deleteRecords allOk remote records).1 ∧
    (∀ t2 : Nat,
      valueMatch ⟨raw.Name, raw.Typ, t2, raw.Data, raw.Reference⟩ m = valueMatch raw m) := by
  constructor
  · have hv : valueMatch raw m = true := by
      simp [valueMatch, hname, htyp, hdata]
    exact deleteTrace_mem hnm hr hm hraw hv
  · intro t2
    rfl

/-- Claim C10 witness: a remote record with TTL 999 is deleted by an input
whose converted TTL is 300 — the TTL difference does not prevent the
deletion. -/
theorem c10_witness :
    (999 : Nat) ≠ 300 ∧
    RemoteCall.delete ("r1") ∈
      (deleteRecords allOk [⟨"d", "TXT", 999, "v", "r1"⟩]
        [GenericRecord.txt ("d") 300000000000 ("v")]).1 := by
  have h := c10_delete_ignores_ttl [⟨"d", "TXT", 999, "v", "r1"⟩]
    [GenericRecord.txt ("d") 300000000000 ("v")] (by decide)
    (GenericRecord.txt ("d") 300000000000 ("v")) (by decide)
    ⟨"d", "TXT", 300, "v", ""⟩ (by decide) ⟨"d", "TXT", 999, "v", "r1"⟩ (by decide)
    rfl rfl rfl (by decide)
  exact ⟨by decide, h.1⟩

/-- Claim C8: when the Set input contains several records sharing a
reconciliation key, only one record per key survives into the
reconciliation step (the calls are computed from the per-key surviving
record only), and the returned list has exactly one entry per distinct
input key, each entry being one of the input records. -/
theorem c8_set_dedup (remote : List metanameRR) (records : List GenericRecord)
    (hnm : records.any GenericRecord.isMalformed = false) :
    ((setRecords allOk remote records).2.1.map GenericRecord.key = keysOf records) ∧
    (keysOf records).Nodup ∧
    (∀ g ∈ (setRecords allOk remote records).2.1, g ∈ records) ∧
    (setRecords allOk remote records).1 =
      ((keysOf records).map (fun k => pairCalls remote (k, lastD records k))).flatten := by
  have hres : (setRecords allOk remote records).2.1 = (setPairs records).map Prod.snd := by
    simp [setRecords, hnm, setLoop_allOk]
  have htr : (setRecords allOk remote records).1 =
      ((setPairs records).map (pairCalls remote)).flatten := by
    simp [setRecords, hnm, setLoop_allOk]
  refine ⟨?_, keysOf_nodup records, ?_, ?_⟩
  · rw [hres, setPairs, List.map_map, List.map_map]
    have h1 : ∀ k2 ∈ keysOf records,
        ((GenericRecord.key ∘ Prod.snd) ∘ fun k => (k, lastD records k)) k2 = id k2 :=
      fun k2 hk2 => (lastD_spec hk2).2
    rw [List.map_congr_left h1, List.map_id]
  · intro g hg
    rw [hres] at hg
    rcases List.mem_map.mp hg with ⟨p, hp, rfl⟩
    rcases List.mem_map.mp (by simpa [setPairs] using hp) with ⟨k2, hk2, rfl⟩
    exact (lastD_spec hk2).1
  · rw [htr, setPairs, List.map_map]
    rfl

/-- Claim C8 witness: two input records under the same key collapse to a
single returned entry for that key. -/
theorem c8_witness :
    ((setRecords allOk []
        [GenericRecord.txt ("n") 100000000000 ("v1"), GenericRecord.txt ("n") 200000000000 ("v2")]).2.1.map
      GenericRecord.key =
        keysOf [GenericRecord.txt ("n") 100000000000 ("v1"), GenericRecord.txt ("n") 200000000000 ("v2")]) ∧
    (keysOf [GenericRecord.txt ("n") 100000000000 ("v1"),
      GenericRecord.txt ("n") 200000000000 ("v2")]).Nodup := by
  have h := c8_set_dedup []
    [GenericRecord.txt ("n") 100000000000 ("v1"), GenericRecord.txt ("n") 200000000000 ("v2")]
    (by decide)
  exact ⟨h.1, h.2.1⟩
